import Mathlib

/-!
Verification of the silverbullet tasks plug (src/plugs/tasks/task.ts):
task extraction and indexing (indexTasks), the state cycle engine and
cross-reference resolver (cycleTaskState), the click entry point
(taskToggle) and the query provider (queryProvider).

The markdown parser, the tree primitives of the excluded tree library
(renderToText, nodeAtPos, replaceNodesMatching, collectNodesMatching,
traverseTreeAsync), the attribute-extraction grammar and the index store
are external collaborators of the spec (spec sections 1 and 6); they are
modelled here from the spec's words, as noted on each definition.  All
string offsets are counted in code points (the source counts UTF-16
units; the two agree on every text these claims touch).
-/

namespace SBTasks

/-- Modelled from the spec: a parse-tree node (spec section 3) with a
structural type tag, an optional literal text, a half-open character
range and an ordered child sequence.  Text leaves carry `some` text and
no children; composite nodes carry `none`. -/
inductive Node : Type where
  | mk (ty : String) (text : Option String) (nfrom nto : Nat) (children : List Node)

def Node.type : Node → String
  | .mk t _ _ _ _ => t

def Node.text : Node → Option String
  | .mk _ tx _ _ _ => tx

def Node.nfrom : Node → Nat
  | .mk _ _ f _ _ => f

def Node.nto : Node → Nat
  | .mk _ _ _ t _ => t

def Node.children : Node → List Node
  | .mk _ _ _ _ cs => cs

/-- A text leaf. -/
def leafN (s : String) (a b : Nat) : Node := .mk "" (some s) a b []

/-! ### Kernel-evaluable string primitives

The JS string operations the source uses (split, includes, number
coercion, trim, prefix test, drop), modelled over the character list so
that concrete runs reduce inside the kernel. -/

/-- JS `String.prototype.split` with a one-character separator. -/
def chSplit (sep : Char) : List Char → List (List Char)
  | [] => [[]]
  | c :: cs =>
    let r := chSplit sep cs
    if c = sep then [] :: r else (c :: r.headD []) :: r.tail

def strSplitOn (sep : Char) (s : String) : List String :=
  (chSplit sep s.toList).map List.asString

/-- JS `String.prototype.includes` with a one-character needle. -/
def strContains (s : String) (c : Char) : Bool := s.toList.contains c

/-- JS `+s` on the digit strings these keys hold (and, like the
source's `String.toNat?`-style coercion, `none` on anything that is not
all digits). -/
def strToNat? (s : String) : Option Nat :=
  if s.toList.isEmpty then none
  else
    s.toList.foldl (fun acc c =>
      match acc with
      | some n => if c.isDigit then some (n * 10 + (c.toNat - 48)) else none
      | none => none) (some 0)

/-- JS `String.prototype.substring(n)` / Lean `String.drop`. -/
def strDrop (s : String) (n : Nat) : String := (s.toList.drop n).asString

/-- JS `String.prototype.trim`. -/
def strTrim (s : String) : String :=
  ((((s.toList).dropWhile Char.isWhitespace).reverse.dropWhile
      Char.isWhitespace).reverse).asString

def chPrefix : List Char → List Char → Bool
  | [], _ => true
  | _ :: _, [] => false
  | a :: as, b :: bs => a == b && chPrefix as bs

def strIsPrefixOf (p s : String) : Bool := chPrefix p.toList s.toList

mutual
/-- Modelled from the spec: renderToText of the excluded tree library —
a node renders as its literal text when it has one, else as the
concatenation of its children's renderings (spec section 6,
renderToText). -/
def renderToText : Node → String
  | .mk _ tx _ _ cs =>
    match tx with
    | some t => t
    | none => renderList cs

def renderList : List Node → String
  | [] => ""
  | c :: cs => renderToText c ++ renderList cs
end

/-- The text of child number `i`, empty when absent (JS `children[i].text`). -/
def childText (n : Node) (i : Nat) : String :=
  ((n.children.get? i).bind Node.text).getD ""

/-! ## State cycle computation (task.ts lines 42-43 and 140-161) -/

/-- task.ts line 42: `const completeStates = ["x", "X"]`. -/
def completeStates : List String := ["x", "X"]

/-- task.ts line 43: `const incompleteStates = [" "]`. -/
def incompleteStates : List String := [" "]

/-- task.ts line 149: `s.key.split(":")[1]` — the token after the first
colon of a `taskState:` index key. -/
def keyToken (k : String) : String :=
  ((strSplitOn ':' k).get? 1).getD ""

/-- JS `new Set` iteration order: first occurrences, in order. -/
def dedupFirst (seen : List String) : List String → List String
  | [] => []
  | s :: ss =>
    if seen.contains s then dedupFirst seen ss
    else s :: dedupFirst (s :: seen) ss

/-- Lexicographic comparison of code-point sequences, the order JS
`Array.prototype.sort` uses on these strings. -/
def lexLe : List Char → List Char → Bool
  | [], _ => true
  | _ :: _, [] => false
  | a :: as, b :: bs => if a < b then true else if b < a then false else lexLe as bs

def strLe (a b : String) : Bool := lexLe a.toList b.toList

def insertSortedStr (s : String) : List String → List String
  | [] => [s]
  | t :: ts => if strLe s t then s :: t :: ts else t :: insertSortedStr s ts

def sortStr : List String → List String
  | [] => []
  | s :: ss => insertSortedStr s (sortStr ss)

/-- task.ts lines 148-150: the distinct custom-state tokens of the
index-wide `taskState:` frequency table, sorted
(`[...new Set(allStates.map((s) => s.key.split(":")[1]))]` then
`states.sort()`). -/
def knownStates (stateKeys : List String) : List String :=
  sortStr (dedupFirst [] (stateKeys.map keyToken))

/-- task.ts lines 152-158: locate the current token, abort (`none`) when
it is absent (`indexOf === -1`), else take the element at index
`(i + 1) % states.length`. -/
def customSuccessor (st : String) (stateKeys : List String) : Option String :=
  let states := knownStates stateKeys
  match states.findIdx? (· == st) with
  | none => none
  | some i => states.get? ((i + 1) % states.length)

/-- task.ts lines 142-161: the successor token.  `stateKeys` are the keys
the custom branch would fetch with `index.queryPrefix("taskState:")`;
the binary branches never consult them. -/
def computeNext (st : String) (stateKeys : List String) : Option String :=
  if completeStates.contains st then some " "
  else if incompleteStates.contains st then some "x"
  else customSuccessor st stateKeys

/-! ## Editor / page world and the observable effects of the resolver -/

/-- JS `text.substring(a, b)` (offsets in code points, clamped). -/
def substr (s : String) (a b : Nat) : String :=
  (((s.toList).drop a).take (b - a)).asString

/-- The buffer after a transactional range replacement
`dispatch({changes: {from, to, insert}})`. -/
def applyEdit (s : String) (f t : Nat) (ins : String) : String :=
  ((s.toList).take f ++ ins.toList ++ (s.toList).drop t).asString

/-- The environment the cycle engine and resolver read and mutate: the
open buffer's text, the stored pages, the `taskState:` keys the index
returns, and the external markdown parser. -/
structure World where
  editorText : String
  pages : String → String
  stateKeys : List String
  parse : String → Node

/-- The outward-visible actions of one cycle operation, in order. -/
inductive Effect : Type where
  | dispatch (efrom eto : Nat) (insert : String)
  | queryIndex (pfx : String)
  | writePage (page text : String)
  | scheduleSync (path : String)
  | logError (msg : String)
deriving DecidableEq, Repr

mutual
/-- Modelled from the spec: nodeAtPos of the excluded tree library —
locates the grammar node containing a position; when the hit bottoms out
in a text leaf, the leaf's parent node is returned, so the search lands
on the state-marker grammar node (spec section 4.4 step 3). -/
def nodeAtPosGo : Node → Nat → Option Node
  | .mk ty tx f t cs, pos =>
    if pos < f || t < pos then none
    else if tx.isSome then some (.mk ty tx f t cs)
    else childScan (.mk ty tx f t cs) cs pos

def childScan : Node → List Node → Nat → Option Node
  | _, [], _ => none
  | parent, c :: cs, pos =>
    match nodeAtPosGo c pos with
    | some m => if (Node.text m).isSome then some parent else some m
    | none => childScan parent cs pos
end

/-- task.ts line 214, `taskStateNode.children![1].text = changeTo`: the
node keeps its shape but its second child now renders as `ins`. -/
def setChild1Text (n : Node) (ins : String) : Node :=
  match n with
  | .mk ty tx f t cs =>
    match cs with
    | c0 :: .mk ty1 _ f1 t1 cs1 :: rest =>
      .mk ty tx f t (c0 :: .mk ty1 (some ins) f1 t1 cs1 :: rest)
    | _ => .mk ty tx f t cs

/-- Result of probing one child while locating the node to mutate. -/
inductive HitRes : Type where
  | textHit
  | updated (n : Node)
  | miss

mutual
/-- The in-place mutation of task.ts line 214 as a pure tree rewrite:
descend exactly as `nodeAtPosGo` does and apply `setChild1Text` to the
node it would return. -/
def childHit : Node → Nat → String → HitRes
  | .mk ty tx f t cs, pos, ins =>
    if pos < f || t < pos then .miss
    else if tx.isSome then .textHit
    else
      match updList cs pos ins with
      | some (true, _) => .updated (setChild1Text (.mk ty tx f t cs) ins)
      | some (false, cs2) => .updated (.mk ty tx f t cs2)
      | none => .miss

def updList : List Node → Nat → String → Option (Bool × List Node)
  | [], _, _ => none
  | c :: cs, pos, ins =>
    match childHit c pos ins with
    | .textHit => some (true, c :: cs)
    | .updated c2 => some (false, c2 :: cs)
    | .miss =>
      match updList cs pos ins with
      | some (b, cs2) => some (b, c :: cs2)
      | none => none
end

/-- Apply `setChild1Text` at the node `nodeAtPosGo tree pos` finds; the
tree is unchanged when there is no hit. -/
def setStateAt (tree : Node) (pos : Nat) (ins : String) : Node :=
  if pos < tree.nfrom || tree.nto < pos then tree
  else if (Node.text tree).isSome then tree
  else
    match updList tree.children pos ins with
    | some (true, _) => setChild1Text tree ins
    | some (false, cs2) => .mk tree.type (Node.text tree) tree.nfrom tree.nto cs2
    | none => tree

mutual
/-- Modelled from the spec: collectNodesMatching of the excluded tree
library — the matching nodes of a subtree in document order (spec
section 4.4: enumerate every backlink found under the task's subtree). -/
def collectMatching (p : Node → Bool) : Node → List Node
  | .mk ty tx f t cs =>
    if p (.mk ty tx f t cs) then [.mk ty tx f t cs] else collectList p cs

def collectList (p : Node → Bool) : List Node → List Node
  | [] => []
  | c :: cs => collectMatching p c ++ collectList p cs
end

/-- A backlink step either continues with the updated world or halts the
whole loop (the `return` statements of task.ts lines 193 and 213). -/
inductive StepRes : Type where
  | ok (w : World) (effs : List Effect)
  | halt (effs : List Effect)

def effectsOfStep : StepRes → List Effect
  | .ok _ e => e
  | .halt e => e

def staleMsg : String := "Reference not a task marker, out of date?"

/-- task.ts lines 177-218: one backlink `page@posS`, already split at
the `@`.  Current page: compare the live buffer's text at
`[pos+1, pos+1+stateText.length)` with the prior token and dispatch on a
match, halt with an error on a mismatch.  Stored page: read and parse
the page, require the node at `pos+1` to be a `TaskState` node, mutate
it, re-render, write the page back and schedule a sync; halt with an
error when the node is missing or of another type. -/
def processParsedRef (pageName stateText changeTo : String) (w : World)
    (page posS : String) : StepRes :=
  let pos := (strToNat? posS).getD 0
  if page == pageName then
    let targetText := substr w.editorText (pos + 1) (pos + 1 + stateText.length)
    if targetText == stateText then
      .ok { w with editorText :=
              applyEdit w.editorText (pos + 1) (pos + 1 + stateText.length) changeTo }
        [.dispatch (pos + 1) (pos + 1 + stateText.length) changeTo]
    else .halt [.logError staleMsg]
  else
    let text := w.pages page
    let tree := w.parse text
    match nodeAtPosGo tree (pos + 1) with
    | none => .halt [.logError staleMsg]
    | some tsn =>
      if tsn.type == "TaskState" then
        let newText := renderToText (setStateAt tree (pos + 1) changeTo)
        .ok { w with pages := fun p => if p == page then newText else w.pages p }
          [.writePage page newText, .scheduleSync (page ++ ".md")]
      else .halt [.logError staleMsg]

/-- task.ts lines 175-178: a reference without an `@` is skipped; one
with an `@` is split into page and offset and processed. -/
def processRef (pageName stateText changeTo : String) (w : World)
    (ref : String) : StepRes :=
  if strContains ref '@' then
    let parts := strSplitOn '@' ref
    processParsedRef pageName stateText changeTo w (parts.headD "")
      ((parts.get? 1).getD "")
  else .ok w []

/-- task.ts lines 174-220: the backlink loop, sequential in document
order; a halting step ends the whole loop (`some` final world = ran to
completion, `none` = halted). -/
def runRefs (pageName stateText changeTo : String) :
    World → List String → Option World × List Effect
  | w, [] => (some w, [])
  | w, r :: rs =>
    match processRef pageName stateText changeTo w r with
    | .ok w2 effs =>
      let out := runRefs pageName stateText changeTo w2 rs
      (out.1, effs ++ out.2)
    | .halt effs => (none, effs)

/-- The reference text of a wiki-link node (`wikiLink.children![0].text!`). -/
def refTextOf (n : Node) : String := childText n 0

/-- task.ts lines 162-220: dispatch the replacement of the state token's
own range, then process every `WikiLinkPage` reference under the task
node.  The buffer the loop's `editor.getText()` reads reflects the
dispatch already applied. -/
def afterChange (pageName stateText changeTo : String) (node parentNode : Node)
    (w : World) : List Effect :=
  let sfrom := ((node.children.get? 1).map Node.nfrom).getD 0
  let sto := ((node.children.get? 1).map Node.nto).getD 0
  let w2 := { w with editorText := applyEdit w.editorText sfrom sto changeTo }
  let refs := (collectMatching (fun n => n.type == "WikiLinkPage") parentNode).map refTextOf
  Effect.dispatch sfrom sto changeTo ::
    (runRefs pageName stateText changeTo w2 refs).2

/-- task.ts lines 136-221, cycleTaskState: read the state token from the
`TaskState` node's second child, compute the successor (binary toggle,
or a rotation through the index's known custom states — aborting with a
logged error and no mutation when the token is unknown), then apply it
to the owning occurrence and every backlink. -/
def cycleTaskState (pageName : String) (parentNode node : Node) (w : World) :
    List Effect :=
  let stateText := childText node 1
  if completeStates.contains stateText then
    afterChange pageName stateText " " node parentNode w
  else if incompleteStates.contains stateText then
    afterChange pageName stateText "x" node parentNode w
  else
    match customSuccessor stateText w.stateKeys with
    | none => [.queryIndex "taskState:", .logError ("Unknown state " ++ stateText)]
    | some c =>
      .queryIndex "taskState:" :: afterChange pageName stateText c node parentNode w

mutual
/-- Modelled from the spec: nodeAtPos with the ancestor chain the parent
back-references of addParentPointers would give (closest ancestor
first). -/
def nodeAtPosPath : Node → Nat → List Node → Option (Node × List Node)
  | .mk ty tx f t cs, pos, anc =>
    if pos < f || t < pos then none
    else if tx.isSome then some (.mk ty tx f t cs, anc)
    else childScanPath (.mk ty tx f t cs) anc cs pos

def childScanPath : Node → List Node → List Node → Nat → Option (Node × List Node)
  | _, _, [], _ => none
  | parent, anc, c :: cs, pos =>
    match nodeAtPosPath c pos (parent :: anc) with
    | some (m, ancM) =>
      if (Node.text m).isSome then some (parent, anc) else some (m, ancM)
    | none => childScanPath parent anc cs pos
end

/-- task.ts lines 223-237, taskCycleAtPos: parse the buffer, locate the
node at `pos`, step from a `TaskMarker` to its parent, and cycle when a
`TaskState` node was hit. -/
def taskCycleAtPos (pageName : String) (pos : Nat) (w : World) : List Effect :=
  let tree := w.parse w.editorText
  match nodeAtPosPath tree pos [] with
  | none => []
  | some (n0, anc0) =>
    let stepped : Option (Node × List Node) :=
      if n0.type == "TaskMarker" then
        match anc0 with
        | p :: rest => some (p, rest)
        | [] => none
      else some (n0, anc0)
    match stepped with
    | none => []
    | some (node, anc) =>
      if node.type == "TaskState" then
        match anc with
        | parentNode :: _ => cycleTaskState pageName parentNode node w
        | [] => []
      else []

/-- task.ts lines 122-127, taskToggle: an alt-click returns immediately;
otherwise the cycle runs at the click position. -/
def taskToggle (altKey : Bool) (page : String) (pos : Nat) (w : World) :
    List Effect :=
  if altKey then [] else taskCycleAtPos page pos w

/-! ## Task extraction and indexing (task.ts lines 26-120) -/

/-- Modelled from the spec: the open-ended per-task attribute bag holds
small tagged values (spec section 9); the external attribute-extraction
grammar of these claims only produces strings. -/
inductive AttrVal : Type where
  | str (s : String)
  | num (n : Int)
  | boolean (b : Bool)
deriving DecidableEq, Repr

/-- The Task record of task.ts lines 26-36: fixed fields plus the
extracted-attribute bag; `pos` and `page` are not saved in the DB, just
added when pulled out (from the key). -/
structure TaskRec where
  name : String
  done : Bool
  state : String
  deadline : Option String
  tags : Option (List String)
  nested : Option String
  pos : Option Nat
  page : Option String
  attrs : List (String × AttrVal)
deriving DecidableEq, Repr

/-- JS `replace(/📅\s*/, "")`: drop the first calendar glyph and the
whitespace right after it. -/
def dropGlyphWs : List Char → List Char
  | [] => []
  | c :: cs =>
    if c = '📅' then cs.dropWhile Char.isWhitespace else c :: dropGlyphWs cs

/-- task.ts lines 38-40, getDeadline:
`deadlineNode.children![0].text!.replace(/📅\s*/, "")`. -/
def getDeadline (deadlineNode : Node) : String :=
  (dropGlyphWs (childText deadlineNode 0).toList).asString

mutual
/-- task.ts lines 72-87 via replaceNodesMatching (traversal modelled
from the spec): capture and remove `DeadlineDate` nodes into the
deadline (a later node overwrites an earlier one), capture `Hashtag`
nodes into the tag list with the leading `#` stripped while keeping
them in the tree.  Returns (surviving node, deadline, tags). -/
def scanDT : Node → Option Node × Option String × List String
  | .mk ty tx f t cs =>
    if ty == "DeadlineDate" then
      (none, some (getDeadline (.mk ty tx f t cs)), [])
    else if ty == "Hashtag" then
      let r := scanDTList cs
      (some (.mk ty tx f t r.1), r.2.1,
        (strDrop (childText (.mk ty tx f t cs) 0) 1) :: r.2.2)
    else
      let r := scanDTList cs
      (some (.mk ty tx f t r.1), r.2.1, r.2.2)

def scanDTList : List Node → List Node × Option String × List String
  | [] => ([], none, [])
  | c :: cs =>
    let rc := scanDT c
    let rs := scanDTList cs
    ((match rc.1 with | some x => x :: rs.1 | none => rs.1),
      rs.2.1 <|> rc.2.1, rc.2.2 ++ rs.2.2)
end

mutual
/-- Modelled from the spec: findNodeOfType of the excluded tree library
— the first node of the given type, document order. -/
def findOfType (ty : String) : Node → Option Node
  | .mk ty2 tx f t cs =>
    if ty2 == ty then some (.mk ty2 tx f t cs) else findOfTypeList ty cs

def findOfTypeList (ty : String) : List Node → Option Node
  | [] => none
  | c :: cs =>
    match findOfType ty c with
    | some m => some m
    | none => findOfTypeList ty cs
end

def renderOfType (ty : String) (cs : List Node) : String :=
  match findOfTypeList ty cs with
  | some m => renderToText m
  | none => ""

mutual
/-- Modelled from the spec: the external attribute-extraction grammar
(task.ts line 90, `extractAttributes(n, true)`) — pull the key:value
pair out of every `Attribute` node and remove the node from the tree
(spec section 4.1). -/
def extrAttr : Node → Option Node × List (String × AttrVal)
  | .mk ty tx f t cs =>
    if ty == "Attribute" then
      (none,
        [(renderOfType "AttributeName" cs,
          AttrVal.str (renderOfType "AttributeValue" cs))])
    else
      let r := extrAttrList cs
      (some (.mk ty tx f t r.1), r.2)

def extrAttrList : List Node → List Node × List (String × AttrVal)
  | [] => ([], [])
  | c :: cs =>
    let rc := extrAttr c
    let rs := extrAttrList cs
    ((match rc.1 with | some x => x :: rs.1 | none => rs.1), rc.2 ++ rs.2)
end

/-- Modelled from the spec: rewritePageRefs rewrites page-local wiki
links to absolute form (spec section 4.1).  No claim depends on the
rewritten link text, so the model keeps the tree unchanged. -/
def rewritePageRefs (n : Node) (_docName : String) : Node := n

/-- Modelled from the spec: removeQueries strips embedded query blocks
before scanning (spec section 4.1).  No claim exercises documents with
query blocks, so the model keeps the tree unchanged. -/
def removeQueries (n : Node) : Node := n

/-- task.ts line 55: `n.children![0].children![1].text!` — the state
token of a Task node. -/
def stateOfTask (n : Node) : String :=
  (((n.children.get? 0).bind (fun c => c.children.get? 1)).bind Node.text).getD ""

/-- JS object assignment `obj[k] = v`: last write wins, insertion order
kept. -/
def objSet (m : List (String × AttrVal)) (k : String) (v : AttrVal) :
    List (String × AttrVal) :=
  if m.any (fun p => p.1 == k) then
    m.map (fun p => if p.1 == k then (p.1, v) else p)
  else m ++ [(k, v)]

/-- task.ts lines 55-107: one Task node (with its following siblings at
the same level) to its task record: state and done, deadline and tags,
extracted attributes, rendered name (marker-sibling children past the
state marker), nested text. -/
def processTask (docName : String) (n : Node) (following : List Node) : TaskRec :=
  let state := stateOfTask n
  let n1 := rewritePageRefs n docName
  let r1 := scanDT n1
  let n2 := r1.1.getD n1
  let r2 := extrAttr n2
  let n3 := r2.1.getD n2
  { name := strTrim (renderList (n3.children.drop 1))
    done := completeStates.contains state
    state := state
    deadline := r1.2.1
    tags := if r1.2.2.isEmpty then none else some r1.2.2
    nested :=
      if following.isEmpty then none else some (strTrim (renderList following))
    pos := none
    page := none
    attrs := r2.2.foldl (fun acc kv => objSet acc kv.1 kv.2) [] }

mutual
/-- task.ts lines 51-54 via traverseTreeAsync (traversal modelled from
the spec): the topmost Task nodes in document order, each with its
following siblings; a Task's own subtree is pruned from further task
discovery.  (A Task at the document root would make the source
dereference a null parent; real documents never put one there, and the
model gives it no siblings.) -/
def tasksInNode : Node → List (Node × List Node)
  | .mk ty tx f t cs =>
    if ty == "Task" then [(.mk ty tx f t cs, [])] else tasksInList cs

def tasksInList : List Node → List (Node × List Node)
  | [] => []
  | c :: cs =>
    (if c.type == "Task" then [(c, cs)] else tasksInNode c) ++ tasksInList cs
end

/-- task.ts lines 56-62: bump the per-document counter of a state token
(JS Map semantics: update in place, insert at the end). -/
def bump (m : List (String × Nat)) (s : String) : List (String × Nat) :=
  if m.any (fun p => p.1 == s) then
    m.map (fun p => if p.1 == s then (p.1, p.2 + 1) else p)
  else m ++ [(s, 1)]

/-- task.ts line 56: a token that is neither incomplete nor complete is
custom. -/
def customTok (s : String) : Bool :=
  !(incompleteStates.contains s) && !(completeStates.contains s)

/-- The state-frequency accumulator of the indexing loop: a fresh map is
folded over the tasks of this pass only. -/
def stateFreq : List (Node × List Node) → List (String × Nat) → List (String × Nat)
  | [], m => m
  | nf :: ts, m =>
    let s := stateOfTask nf.1
    stateFreq ts (if customTok s then bump m s else m)

def taskEntry (docName : String) (nf : Node × List Node) : String × TaskRec :=
  ("task:" ++ toString nf.1.nfrom, processTask docName nf.1 nf.2)

/-- The whole-document attribute map of the indexing loop. -/
def allAttrsOf (docName : String) :
    List (Node × List Node) → List (String × AttrVal) → List (String × AttrVal)
  | [], m => m
  | nf :: ts, m =>
    allAttrsOf docName ts
      ((processTask docName nf.1 nf.2).attrs.foldl
        (fun acc kv => objSet acc kv.1 kv.2) m)

structure IndexOut where
  tasks : List (String × TaskRec)
  states : List (String × Nat)
  allAttributes : List (String × AttrVal)
deriving DecidableEq, Repr

/-- task.ts lines 45-120, indexTasks: strip query blocks, walk the tree
for topmost Task nodes, and compute the task records (keyed
`task:<start offset>`), the per-document custom-state frequency snapshot
and the whole-document attribute map.  The single source loop feeds
three independent accumulators; they are computed separately here. -/
def indexTasks (docName : String) (tree : Node) : IndexOut :=
  let ts := tasksInNode (removeQueries tree)
  { tasks := ts.map (taskEntry docName)
    states := stateFreq ts []
    allAttributes := allAttrsOf docName ts [] }

/-! ## Index store (modelled from the spec) and the query provider -/

/-- A value the tasks plug stores: a task record or a frequency count. -/
inductive IxVal : Type where
  | task (t : TaskRec)
  | count (n : Nat)
deriving DecidableEq, Repr

/-- Modelled from the spec: the external index store — records under
(page, key), writes upsert (spec section 6, batchSet/queryPrefix). -/
abbrev Store := List ((String × String) × IxVal)

def setKV (st : Store) (pgk : String × String) (v : IxVal) : Store :=
  (pgk, v) :: st.filter (fun e => !(e.1 == pgk))

/-- Modelled from the spec: `index.batchSet(scope, records)` writes each
record under the scoping page. -/
def batchSet (pg : String) (entries : List (String × IxVal)) (st : Store) : Store :=
  entries.foldl (fun s e => setKV s (pg, e.1) e.2) st

def lookupStore (st : Store) (pgk : String × String) : Option IxVal :=
  (st.find? (fun e => e.1 == pgk)).map (fun e => e.2)

/-- Modelled from the spec: `index.queryPrefix(prefix)` — every record
whose key starts with the literal prefix, annotated with its owning
page: (key, page, value). -/
def queryPfx (st : Store) (pre : String) : List (String × String × IxVal) :=
  st.filterMap (fun e =>
    if strIsPrefixOf pre e.1.2 then some (e.1.2, e.1.1, e.2) else none)

/-- One indexing pass as a store transformer: the two batchSet calls of
task.ts lines 111-119 (the attribute index of line 112 lives in a
separate out-of-scope module). -/
def indexPass (docName : String) (tree : Node) (st : Store) : Store :=
  let out := indexTasks docName tree
  batchSet docName
    (out.states.map (fun sc => ("taskState:" ++ sc.1, IxVal.count sc.2)))
    (batchSet docName (out.tasks.map (fun kt => (kt.1, IxVal.task kt.2))) st)

/-- task.ts line 328: `+key.split(":")[1]` — the numeric position after
`task:` in an index key. -/
def parseTaskPos (key : String) : Nat := (strToNat? (keyToken key)).getD 0

/-- task.ts lines 329-333: the query-time decoration
`{...value, page, pos}`. -/
def decorate (key pg : String) (t : TaskRec) : TaskRec :=
  { t with page := some pg, pos := some (parseTaskPos key) }

/-- task.ts lines 322-335, queryProvider before the external applyQuery:
each stored task under the `task:` prefix, decorated with its owning
page and the position parsed from its key.  (Non-task values cannot sit
under `task:` keys written by indexTasks; the model skips them.) -/
def queryProviderTasks (st : Store) : List TaskRec :=
  (queryPfx st "task:").filterMap (fun e =>
    match e.2.2 with
    | IxVal.task t => some (decorate e.1 e.2.1 t)
    | IxVal.count _ => none)

/-! ## Concrete instances used by the theorems below -/

/-- A `TaskState` node `[-]` at offsets 2..5 whose task carries the
custom state `-`. -/
def dashStateNode : Node :=
  .mk "TaskState" none 2 5 [leafN "[" 2 3, leafN "-" 3 4, leafN "]" 4 5]

def dashParent : Node := .mk "Task" none 0 8 [dashStateNode, leafN " A" 5 7]

def dashWorld : World :=
  { editorText := "- [-] A"
    pages := fun _ => ""
    stateKeys := ["taskState:-", "taskState:/", "taskState:!"]
    parse := fun _ => leafN "" 0 0 }

/-- A `TaskState` node `[?]` whose custom state `?` is absent from the
index's known-state set. -/
def unknownStateNode : Node :=
  .mk "TaskState" none 2 5 [leafN "[" 2 3, leafN "?" 3 4, leafN "]" 4 5]

def unknownParent : Node := .mk "Task" none 0 8 [unknownStateNode, leafN " A" 5 7]

def unknownWorld : World :=
  { editorText := "- [?] A"
    pages := fun _ => ""
    stateKeys := ["taskState:-"]
    parse := fun _ => leafN "" 0 0 }

/-- The stored page `- [-] Task` of the C1 scenario: its task's state
has drifted from `x` to `-`, yet its state marker still parses as a
`TaskState` node. -/
def driftedTree : Node := .mk "Document" none 0 10
  [leafN "- " 0 2,
   .mk "TaskState" none 2 5 [leafN "[" 2 3, leafN "-" 3 4, leafN "]" 4 5],
   leafN " Task" 5 10]

def driftedWorld : World :=
  { editorText := ""
    pages := fun p => if p == "other" then "- [-] Task" else ""
    stateKeys := []
    parse := fun t => if t == "- [-] Task" then driftedTree else leafN "" 0 0 }

/-- The C2 scenario: a task `[x]` at offsets 2..5 with two backlinks,
`home@10` (stale: the buffer holds `y` at offset 11) and `home@18`
(intact: the buffer holds `x` at offset 19). -/
def twoRefStateNode : Node :=
  .mk "TaskState" none 2 5 [leafN "[" 2 3, leafN "x" 3 4, leafN "]" 4 5]

def twoRefParent : Node := .mk "Task" none 0 23
  [twoRefStateNode, leafN " A " 5 8,
   .mk "WikiLinkPage" none 8 15 [leafN "home@10" 8 15],
   .mk "WikiLinkPage" none 15 22 [leafN "home@18" 15 22]]

def twoRefWorld : World :=
  { editorText := "- [x] A - [y] B - [x] C"
    pages := fun _ => ""
    stateKeys := []
    parse := fun _ => leafN "" 0 0 }

/-- The buffer of `twoRefWorld` right after the own occurrence's
dispatch, the state the backlink loop starts from. -/
def twoRefWorldEdited : World :=
  { twoRefWorld with editorText := applyEdit twoRefWorld.editorText 3 4 " " }

/-- `twoRefWorldEdited` after the intact backlink `home@18` has been
rewritten. -/
def twoRefWorldDone : World :=
  { twoRefWorldEdited with
      editorText := applyEdit twoRefWorldEdited.editorText 19 20 " " }

/-- The parse tree of `- [ ] Buy milk 📅 2024-01-05 #errand prio:: high`
(the C6 extraction example), modelled from the spec's description of the
grammar: a Task whose first child is the TaskState marker, a
DeadlineDate node covering the glyph, the date and the whitespace after
them, a Hashtag node, and an Attribute node for `prio:: high`. -/
def buyMilkTask : Node := .mk "Task" none 2 47
  [.mk "TaskState" none 2 5
      [.mk "TaskMarker" none 2 3 [leafN "[" 2 3], leafN " " 3 4, leafN "]" 4 5],
   leafN " Buy milk " 5 15,
   .mk "DeadlineDate" none 15 28 [leafN "📅 2024-01-05" 15 27, leafN " " 27 28],
   .mk "Hashtag" none 28 35 [leafN "#errand" 28 35],
   leafN " " 35 36,
   .mk "Attribute" none 36 47
     [.mk "AttributeName" none 36 40 [leafN "prio" 36 40], leafN ":: " 40 43,
      .mk "AttributeValue" none 43 47 [leafN "high" 43 47]]]

def buyMilkDoc : Node := .mk "Document" none 0 47
  [.mk "BulletList" none 0 47
    [.mk "ListItem" none 0 47 [leafN "- " 0 2, buyMilkTask]]]

/-- The task record the spec expects for the C6 example. -/
def buyMilkRec : TaskRec :=
  { name := "Buy milk #errand", done := false, state := " "
    deadline := some "2024-01-05", tags := some ["errand"]
    nested := none, pos := none, page := none
    attrs := [("prio", AttrVal.str "high")] }

/-! ## Theorems -/

/-- C3: for a custom state token the cycle engine fetches the distinct
custom tokens of the index-wide frequency table, sorts them
lexicographically and selects index `(i+1) mod n`; the set
{"-", "/", "!"} sorts to ["!", "-", "/"] and cycling maps "-" to "/",
"/" to "!" and "!" to "-" (and a cycle on a task in state "-" queries
the index and dispatches "/"). -/
theorem c3_custom_cycle_rotation :
    knownStates ["taskState:-", "taskState:/", "taskState:!"] = ["!", "-", "/"] ∧
    computeNext "-" ["taskState:-", "taskState:/", "taskState:!"] = some "/" ∧
    computeNext "/" ["taskState:-", "taskState:/", "taskState:!"] = some "!" ∧
    computeNext "!" ["taskState:-", "taskState:/", "taskState:!"] = some "-" ∧
    cycleTaskState "home" dashParent dashStateNode dashWorld =
      [Effect.queryIndex "taskState:", Effect.dispatch 3 4 "/"] := by
  decide

/-- C4 as stated is false at the binary token "X": one cycle takes it
to " ", a second to "x", so two cycles do not return it to its original
value. -/
theorem c4_double_cycle_counterexample :
    computeNext "X" [] = some " " ∧
    (computeNext "X" []).bind (fun s => computeNext s []) = some "x" ∧
    ¬ ((computeNext "X" []).bind (fun s => computeNext s []) = some "X") := by
  decide

/-- C4 amended: whatever the index holds, one cycle maps "x" and "X" to
" " and " " to "x"; two cycles return " " and "x" to their original
value, while "X" ends at "x". -/
theorem c4_binary_toggle_amended : ∀ stateKeys : List String,
    computeNext "x" stateKeys = some " " ∧
    computeNext "X" stateKeys = some " " ∧
    computeNext " " stateKeys = some "x" ∧
    (computeNext " " stateKeys).bind (fun s => computeNext s stateKeys) = some " " ∧
    (computeNext "x" stateKeys).bind (fun s => computeNext s stateKeys) = some "x" ∧
    (computeNext "X" stateKeys).bind (fun s => computeNext s stateKeys) = some "x" := by
  intro stateKeys
  exact ⟨rfl, rfl, rfl, rfl, rfl, rfl⟩

/-- C6: the tree of `- [ ] Buy milk 📅 2024-01-05 #errand prio:: high`
renders back to that line, and indexing it yields exactly the record
{done: false, state: " ", deadline: "2024-01-05", tags: ["errand"],
prio: "high", name: "Buy milk #errand"} under key `task:2` — deadline
and attribute removed from the name, hashtag captured but kept. -/
theorem c6_buy_milk_extraction :
    renderToText buyMilkDoc = "- [ ] Buy milk 📅 2024-01-05 #errand prio:: high" ∧
    indexTasks "test" buyMilkDoc =
      { tasks := [("task:2", buyMilkRec)]
        states := []
        allAttributes := [("prio", AttrVal.str "high")] } := by
  decide

/-- C10: a click with the alt key held makes taskToggle return at once:
no effect at all is emitted — no dispatch, no index query, no page
write. -/
theorem c10_alt_click_no_effects :
    ∀ (page : String) (pos : Nat) (w : World), taskToggle true page pos w = [] := by
  intro page pos w
  rfl

/-- A token absent from the known-state list makes the successor lookup
abort (task.ts lines 152-156, `indexOf === -1`). -/
theorem customSuccessor_eq_none (st : String) (keys : List String)
    (h : st ∉ knownStates keys) : customSuccessor st keys = none := by
  unfold customSuccessor
  have hf : (knownStates keys).findIdx? (· == st) = none := by
    rw [List.findIdx?_eq_none_iff]
    intro x hx
    simp only [beq_eq_false_iff_ne]
    intro e
    exact h (e ▸ hx)
  simp [hf]

/-- C5: cycling a task whose custom token is absent from the known-state
set fetched from the index aborts with a logged error and performs no
mutation — the only effects are the index query and the error, no
dispatch, no page write, no backlink propagation. -/
theorem c5_unknown_state_aborts :
    ∀ (pageName : String) (parentNode node : Node) (w : World),
    completeStates.contains (childText node 1) = false →
    incompleteStates.contains (childText node 1) = false →
    childText node 1 ∉ knownStates w.stateKeys →
    cycleTaskState pageName parentNode node w =
      [Effect.queryIndex "taskState:",
       Effect.logError ("Unknown state " ++ childText node 1)] := by
  intro pageName parentNode node w h1 h2 h3
  have h1m : childText node 1 ∉ completeStates := by simpa using h1
  have h2m : childText node 1 ∉ incompleteStates := by simpa using h2
  unfold cycleTaskState
  simp [h1m, h2m, customSuccessor_eq_none _ _ h3]

/-- C5 witness: the `[?]` task with the index only knowing `-`. -/
theorem c5_unknown_state_aborts_witness :
    cycleTaskState "page" unknownParent unknownStateNode unknownWorld =
      [Effect.queryIndex "taskState:",
       Effect.logError ("Unknown state " ++ childText unknownStateNode 1)] :=
  c5_unknown_state_aborts "page" unknownParent unknownStateNode unknownWorld
    (by decide) (by decide) (by decide)

/-- C2 as stated is false: with a stale first backlink and an intact
second one, the whole cycle emits only the own-occurrence dispatch and
the staleness error — the second backlink, which on its own would be
rewritten (second conjunct), is never processed. -/
theorem c2_continue_counterexample :
    cycleTaskState "home" twoRefParent twoRefStateNode twoRefWorld =
      [Effect.dispatch 3 4 " ", Effect.logError staleMsg] ∧
    (runRefs "home" "x" " " twoRefWorldEdited ["home@18"]).2 =
      [Effect.dispatch 19 20 " "] := by
  decide

/-- C2 amended: the backlinks are processed sequentially and a failure
on one neither rolls back the effects already produced for the earlier
backlinks nor is reported lazily — but it halts the loop, so the
remaining backlinks are not processed and contribute no effects. -/
theorem runRefs_nil (a b c : String) (w : World) :
    runRefs a b c w [] = (some w, []) := rfl

theorem runRefs_cons_ok {a b c : String} {w w2 : World} {r : String}
    {effs : List Effect} (rs : List String)
    (h : processRef a b c w r = .ok w2 effs) :
    runRefs a b c w (r :: rs) =
      ((runRefs a b c w2 rs).1, effs ++ (runRefs a b c w2 rs).2) := by
  have he : runRefs a b c w (r :: rs) =
      (match processRef a b c w r with
        | .ok w2 effs =>
          ((runRefs a b c w2 rs).1, effs ++ (runRefs a b c w2 rs).2)
        | .halt effs => (none, effs)) := rfl
  rw [he, h]

theorem runRefs_cons_halt {a b c : String} {w : World} {r : String}
    {effs : List Effect} (rs : List String)
    (h : processRef a b c w r = .halt effs) :
    runRefs a b c w (r :: rs) = (none, effs) := by
  have he : runRefs a b c w (r :: rs) =
      (match processRef a b c w r with
        | .ok w2 effs =>
          ((runRefs a b c w2 rs).1, effs ++ (runRefs a b c w2 rs).2)
        | .halt effs => (none, effs)) := rfl
  rw [he, h]

theorem c2_halt_no_rollback_amended :
    ∀ (pageName stateText changeTo : String) (w w1 : World)
      (pre rs : List String) (r : String) (effs1 effsR : List Effect),
    runRefs pageName stateText changeTo w pre = (some w1, effs1) →
    processRef pageName stateText changeTo w1 r = .halt effsR →
    runRefs pageName stateText changeTo w (pre ++ r :: rs) =
      (none, effs1 ++ effsR) := by
  intro pageName stateText changeTo w w1 pre rs r effs1 effsR hpre hr
  induction pre generalizing w effs1 with
  | nil =>
    rw [runRefs_nil] at hpre
    obtain ⟨hw, he⟩ := Prod.mk.injEq .. ▸ hpre
    obtain rfl := Option.some.inj hw
    subst he
    rw [List.nil_append, runRefs_cons_halt rs hr, List.nil_append]
  | cons p ps ih =>
    cases hstep : processRef pageName stateText changeTo w p with
    | halt effs =>
      rw [runRefs_cons_halt ps hstep] at hpre
      exact absurd (congrArg Prod.fst hpre) (by simp)
    | ok w2 effs =>
      rw [runRefs_cons_ok ps hstep] at hpre
      rcases hres : runRefs pageName stateText changeTo w2 ps with ⟨o, e2⟩
      rw [hres] at hpre
      simp only [Prod.mk.injEq] at hpre
      obtain ⟨ho, he⟩ := hpre
      have hrest := ih w2 e2 (by rw [hres, ho])
      have hsplit : (p :: ps) ++ r :: rs = p :: (ps ++ r :: rs) := rfl
      rw [hsplit, runRefs_cons_ok (ps ++ r :: rs) hstep, hrest]
      subst he
      simp [List.append_assoc]

/-- C2 witness for the amended theorem: after the intact backlink
`home@18` is rewritten, the stale `home@10` halts the loop, keeping the
earlier dispatch and dropping the rest. -/
theorem c2_halt_no_rollback_amended_witness :
    runRefs "home" "x" " " twoRefWorldEdited
        (["home@18"] ++ "home@10" :: ["home@18"]) =
      (none, [Effect.dispatch 19 20 " "] ++ [Effect.logError staleMsg]) :=
  c2_halt_no_rollback_amended "home" "x" " " twoRefWorldEdited twoRefWorldDone
    ["home@18"] ["home@18"] "home@10"
    [Effect.dispatch 19 20 " "] [Effect.logError staleMsg] rfl rfl

/-- C1 as stated is false for a stored page: the page's text at the
recorded offset no longer equals the prior token `x` (it drifted to
`-`), yet the resolver still writes the page — the stored-page guard
checks only that a `TaskState` node parses at the offset, not the
text. -/
theorem c1_stored_page_counterexample :
    substr (driftedWorld.pages "other") 3 4 ≠ "x" ∧
    effectsOfStep (processParsedRef "home" "x" " " driftedWorld "other" "2") =
      [Effect.writePage "other" "- [ ] Task", Effect.scheduleSync "other.md"] := by
  decide

/-- C1 amended: for a backlink into the currently open page the guard is
exact text equality over [offset+1, offset+1+len(oldToken)) — a mismatch
halts with an error and no write, a match dispatches exactly that range
replacement; for a backlink into another stored page the guard is only
that the node parsed at offset+1 is a TaskState node: a write-back
occurs exactly in that case, whether or not that node's text still
equals the prior token. -/
theorem c1_stale_guard_amended :
    ∀ (w : World) (pageName stateText changeTo page posS : String),
    (page = pageName →
      substr w.editorText ((strToNat? posS).getD 0 + 1)
          ((strToNat? posS).getD 0 + 1 + stateText.length) ≠ stateText →
      processParsedRef pageName stateText changeTo w page posS =
        .halt [Effect.logError staleMsg]) ∧
    (page = pageName →
      substr w.editorText ((strToNat? posS).getD 0 + 1)
          ((strToNat? posS).getD 0 + 1 + stateText.length) = stateText →
      processParsedRef pageName stateText changeTo w page posS =
        .ok { w with editorText := (applyEdit w.editorText ((strToNat? posS).getD 0 + 1) ((strToNat? posS).getD 0 + 1 + stateText.length) changeTo) }
          [Effect.dispatch ((strToNat? posS).getD 0 + 1)
            ((strToNat? posS).getD 0 + 1 + stateText.length) changeTo]) ∧
    (page ≠ pageName →
      ((∃ pg txt, Effect.writePage pg txt ∈
          effectsOfStep (processParsedRef pageName stateText changeTo w page posS)) ↔
        ∃ n, nodeAtPosGo (w.parse (w.pages page)) ((strToNat? posS).getD 0 + 1) =
              some n ∧
            n.type = "TaskState")) := by
  intro w pageName stateText changeTo page posS
  refine ⟨?_, ?_, ?_⟩
  · intro hpg hne
    subst hpg
    unfold processParsedRef
    simp [beq_eq_false_iff_ne.mpr hne]
  · intro hpg heq
    subst hpg
    unfold processParsedRef
    simp [heq]
  · intro hpg
    have hb : (page == pageName) = false := beq_eq_false_iff_ne.mpr hpg
    unfold processParsedRef
    simp only [hb, Bool.false_eq_true, if_false]
    cases hnode : nodeAtPosGo (w.parse (w.pages page)) ((strToNat? posS).getD 0 + 1) with
    | none => simp [effectsOfStep]
    | some tsn =>
      cases htyp : (tsn.type == "TaskState") with
      | true =>
        have hty : tsn.type = "TaskState" := by simpa using htyp
        simp only [htyp, if_true, effectsOfStep]
        constructor
        · intro _
          exact ⟨tsn, rfl, hty⟩
        · intro _
          refine ⟨page,
            renderToText (setStateAt (w.parse (w.pages page))
              ((strToNat? posS).getD 0 + 1) changeTo), ?_⟩
          simp
      | false =>
        simp only [htyp, Bool.false_eq_true, if_false, effectsOfStep]
        constructor
        · rintro ⟨pg, txt, hmem⟩
          simp at hmem
        · rintro ⟨n, hn, hty2⟩
          obtain rfl := Option.some.inj hn
          rw [hty2] at htyp
          simp at htyp

/-! ## C7: done iff complete, and the frequency table holds exactly the
custom tokens -/

theorem stateFreq_nil (m : List (String × Nat)) : stateFreq [] m = m := rfl

theorem stateFreq_cons (nf : Node × List Node) (ts : List (Node × List Node))
    (m : List (String × Nat)) :
    stateFreq (nf :: ts) m =
      stateFreq ts
        (if customTok (stateOfTask nf.1) then bump m (stateOfTask nf.1) else m) := rfl

/-- The record built by processTask carries the raw state token. -/
theorem processTask_state (d : String) (n : Node) (fol : List Node) :
    (processTask d n fol).state = stateOfTask n := rfl

/-- done is the completeness test of the same token. -/
theorem processTask_done (d : String) (n : Node) (fol : List Node) :
    (processTask d n fol).done = completeStates.contains (stateOfTask n) := rfl

theorem processTask_pos (d : String) (n : Node) (fol : List Node) :
    (processTask d n fol).pos = none := rfl

theorem processTask_page (d : String) (n : Node) (fol : List Node) :
    (processTask d n fol).page = none := rfl

theorem customTok_iff (s : String) :
    customTok s = true ↔ s ≠ " " ∧ s ≠ "x" ∧ s ≠ "X" := by
  simp [customTok, incompleteStates, completeStates, List.contains]

/-- Every entry of `bump m s` is keyed `s` or carries a key of `m`. -/
theorem mem_bump_fst {m : List (String × Nat)} {s : String} {p : String × Nat}
    (hp : p ∈ bump m s) : p.1 = s ∨ ∃ q ∈ m, q.1 = p.1 := by
  unfold bump at hp
  split at hp
  · obtain ⟨q, hq, he⟩ := List.mem_map.mp hp
    split at he
    · right; exact ⟨q, hq, by subst he; rfl⟩
    · right; exact ⟨q, hq, by subst he; rfl⟩
  · rcases List.mem_append.mp hp with h1 | h2
    · right; exact ⟨p, h1, rfl⟩
    · left
      simp only [List.mem_singleton] at h2
      rw [h2]

/-- `bump m s` keeps a key of `m`. -/
theorem bump_keeps {m : List (String × Nat)} {t s : String}
    (h : ∃ c, (t, c) ∈ m) : ∃ c, (t, c) ∈ bump m s := by
  obtain ⟨c, hc⟩ := h
  unfold bump
  split
  · by_cases hts : (t == s) = true
    · exact ⟨c + 1, List.mem_map.mpr ⟨(t, c), hc, by simp [hts]⟩⟩
    · exact ⟨c, List.mem_map.mpr ⟨(t, c), hc, by simp [hts]⟩⟩
  · exact ⟨c, List.mem_append_left _ hc⟩

/-- `bump m s` holds the key `s`. -/
theorem bump_self (m : List (String × Nat)) (s : String) :
    ∃ c, (s, c) ∈ bump m s := by
  unfold bump
  split
  case isTrue h =>
    obtain ⟨q, hq, hqs⟩ := List.any_eq_true.mp h
    have he : q.1 = s := by simpa using hqs
    exact ⟨q.2 + 1, List.mem_map.mpr ⟨q, hq, by simp [hqs, he]⟩⟩
  case isFalse h =>
    exact ⟨1, List.mem_append_right _ (by simp)⟩

theorem stateFreq_keeps (ts : List (Node × List Node)) :
    ∀ (m : List (String × Nat)) (t : String),
    (∃ c, (t, c) ∈ m) → ∃ c, (t, c) ∈ stateFreq ts m := by
  induction ts with
  | nil => intro m t h; exact h
  | cons nf ts ih =>
    intro m t h
    rw [stateFreq_cons]
    apply ih
    split
    · exact bump_keeps h
    · exact h

/-- Every key of the frequency snapshot satisfies any predicate that
holds of the initial keys and of every custom token of the pass. -/
theorem stateFreq_fst_custom (ts : List (Node × List Node)) :
    ∀ (m : List (String × Nat)),
    (∀ p ∈ m, customTok p.1 = true) →
    ∀ p ∈ stateFreq ts m, customTok p.1 = true := by
  induction ts with
  | nil => intro m hm p hp; exact hm p hp
  | cons nf ts ih =>
    intro m hm p hp
    rw [stateFreq_cons] at hp
    refine ih _ ?_ p hp
    split
    case isTrue hcust =>
      intro q hq
      rcases mem_bump_fst hq with h1 | ⟨q', hq', he⟩
      · rw [h1]; exact hcust
      · rw [← he]; exact hm q' hq'
    case isFalse hcust => exact hm

/-- A custom token of a processed task ends up in the snapshot. -/
theorem stateFreq_mem_of_task (ts : List (Node × List Node)) :
    ∀ (m : List (String × Nat)) (nf : Node × List Node), nf ∈ ts →
    customTok (stateOfTask nf.1) = true →
    ∃ c, (stateOfTask nf.1, c) ∈ stateFreq ts m := by
  induction ts with
  | nil => intro m nf h; exact absurd h (List.not_mem_nil nf)
  | cons hd ts ih =>
    intro m nf hmem hcust
    rw [stateFreq_cons]
    rcases List.mem_cons.mp hmem with rfl | htl
    · rw [if_pos hcust]
      exact stateFreq_keeps ts _ _ (bump_self m _)
    · exact ih _ nf htl hcust

/-- C7: in every indexing pass, a record's done flag holds exactly when
its state token is "x" or "X"; the state-frequency snapshot never
carries a binary token; and every custom token of a record of the pass
is counted in the snapshot. -/
theorem c7_done_iff_complete_freq_custom :
    ∀ (docName : String) (tree : Node),
    (∀ k r, (k, r) ∈ (indexTasks docName tree).tasks →
      (r.done = true ↔ (r.state = "x" ∨ r.state = "X"))) ∧
    (∀ s c, (s, c) ∈ (indexTasks docName tree).states →
      s ≠ " " ∧ s ≠ "x" ∧ s ≠ "X") ∧
    (∀ k r, (k, r) ∈ (indexTasks docName tree).tasks →
      r.state ≠ " " ∧ r.state ≠ "x" ∧ r.state ≠ "X" →
      ∃ c, (r.state, c) ∈ (indexTasks docName tree).states) := by
  intro docName tree
  refine ⟨?_, ?_, ?_⟩
  · intro k r hkr
    obtain ⟨nf, hnf, he⟩ := List.mem_map.mp hkr
    have hr : r = processTask docName nf.1 nf.2 := by
      have := congrArg Prod.snd he
      simpa [taskEntry] using this.symm
    subst hr
    rw [processTask_done, processTask_state]
    simp [completeStates, List.contains]
  · intro s c hsc
    have hcust := stateFreq_fst_custom _ [] (by simp) (s, c) hsc
    exact (customTok_iff s).mp hcust
  · intro k r hkr hne
    obtain ⟨nf, hnf, he⟩ := List.mem_map.mp hkr
    have hr : r = processTask docName nf.1 nf.2 := by
      have := congrArg Prod.snd he
      simpa [taskEntry] using this.symm
    subst hr
    rw [processTask_state] at hne ⊢
    exact stateFreq_mem_of_task _ [] nf hnf ((customTok_iff _).mpr hne)

/-! ## C8: an indexing pass is idempotent on the store -/

theorem find?_filter_ne (pgk x : String × String) (hx : x ≠ pgk) :
    ∀ st : Store,
    (st.filter (fun e => !(e.1 == pgk))).find? (fun e => e.1 == x) =
      st.find? (fun e => e.1 == x) := by
  intro st
  induction st with
  | nil => rfl
  | cons e st ih =>
    simp only [List.filter_cons, List.find?_cons]
    by_cases hek : (e.1 == pgk) = true
    · have he1 : e.1 = pgk := by simpa using hek
      have hex : (e.1 == x) = false := by simp [he1, Ne.symm hx]
      simp [hek, hex, ih]
    · have hekf : (e.1 == pgk) = false := by simpa using hek
      simp only [hekf, Bool.not_false, if_true, List.find?_cons]
      cases hex : (e.1 == x) with
      | true => rfl
      | false => exact ih

theorem lookup_setKV (st : Store) (pgk x : String × String) (v : IxVal) :
    lookupStore (setKV st pgk v) x =
      if x = pgk then some v else lookupStore st x := by
  unfold setKV lookupStore
  by_cases hx : x = pgk
  · subst hx
    simp [List.find?_cons]
  · rw [if_neg hx]
    have hpx : (pgk == x) = false := by simp [Ne.symm hx]
    simp only [List.find?_cons, hpx]
    rw [find?_filter_ne pgk x hx st]

theorem lookup_batchSet (pg : String) (es : List (String × IxVal)) :
    ∀ (st : Store) (x : String × String),
    lookupStore (batchSet pg es st) x =
      (match es.reverse.find? (fun e2 => x == (pg, e2.1)) with
        | some e2 => some e2.2
        | none => lookupStore st x) := by
  induction es with
  | nil => intro st x; rfl
  | cons e es ih =>
    intro st x
    have hb : batchSet pg (e :: es) st = batchSet pg es (setKV st (pg, e.1) e.2) := rfl
    rw [hb, ih]
    rw [show (e :: es).reverse = es.reverse ++ [e] from by simp]
    rw [List.find?_append]
    cases hf : es.reverse.find? (fun e2 => x == (pg, e2.1)) with
    | some v => simp [Option.or]
    | none =>
      simp only [Option.none_or]
      by_cases hx : (x == (pg, e.1)) = true
      · have hxe : x = (pg, e.1) := by simpa using hx
        simp [List.find?, hx, lookup_setKV, hxe]
      · have hxe : x ≠ (pg, e.1) := by simpa using hx
        simp [List.find?, hx, lookup_setKV, hxe]

/-- Applying the same pair of batch writes twice leaves every lookup as
after one application. -/
theorem lookup_two_batch_idem (pg : String) (es1 es2 : List (String × IxVal))
    (st : Store) (x : String × String) :
    lookupStore (batchSet pg es2 (batchSet pg es1
        (batchSet pg es2 (batchSet pg es1 st)))) x =
      lookupStore (batchSet pg es2 (batchSet pg es1 st)) x := by
  simp only [lookup_batchSet]
  cases hf2 : es2.reverse.find? (fun e2 => x == (pg, e2.1)) with
  | some v => rfl
  | none =>
    cases hf1 : es1.reverse.find? (fun e2 => x == (pg, e2.1)) with
    | some v => rfl
    | none => rfl

/-- C8: indexing the same document tree twice with no intervening edits
writes the same task records under the same keys and the same frequency
counts, and the store after the second pass answers every lookup exactly
as after the first — each pass recomputes its snapshot from scratch
instead of accumulating onto prior counts. -/
theorem c8_index_pass_idempotent :
    ∀ (docName : String) (tree : Node) (st : Store) (x : String × String),
    lookupStore (indexPass docName tree (indexPass docName tree st)) x =
      lookupStore (indexPass docName tree st) x := by
  intro docName tree st x
  unfold indexPass
  exact lookup_two_batch_idem docName _ _ st x

/-! ## C9: query-time decoration -/

/-- C9: every record the query provider returns is a stored record
decorated with the page annotation of its index entry and the numeric
position parsed from the segment of its key after `task:`; and the
extractor itself never stores `page` or `pos` in a record. -/
theorem c9_decoration_from_key_only :
    (∀ (st : Store) (r : TaskRec), r ∈ queryProviderTasks st →
      ∃ k pg t0, (k, pg, IxVal.task t0) ∈ queryPfx st "task:" ∧
        r = decorate k pg t0 ∧
        r.page = some pg ∧ r.pos = some (parseTaskPos k)) ∧
    (∀ (docName : String) (tree : Node) (k : String) (r : TaskRec),
      (k, r) ∈ (indexTasks docName tree).tasks →
      r.pos = none ∧ r.page = none) := by
  constructor
  · intro st r hr
    obtain ⟨e, he, hsome⟩ := List.mem_filterMap.mp hr
    rcases e with ⟨k, pg, v⟩
    cases v with
    | task t0 =>
      simp only at hsome
      obtain rfl := Option.some.inj hsome
      exact ⟨k, pg, t0, he, rfl, rfl, rfl⟩
    | count n => simp at hsome
  · intro docName tree k r hkr
    obtain ⟨nf, hnf, he⟩ := List.mem_map.mp hkr
    have hr : r = processTask docName nf.1 nf.2 := by
      have := congrArg Prod.snd he
      simpa [taskEntry] using this.symm
    subst hr
    exact ⟨processTask_pos docName nf.1 nf.2, processTask_page docName nf.1 nf.2⟩

end SBTasks
